import Mathlib

/-!
Verification of the toolbridge-api sync engine against its specification.

The Go source is shallowly embedded: each entity table is an association
list of rows keyed by `(owner_id, uid)`, SQL upserts become pure functions
on those lists, and the service functions (`PushCommentItem`,
`PushChatMessageItem`, `PushTaskListCategoryItem`, `PullComments`,
`WipeAccount`, `GetSyncState`, `GetSession`,
`ApplyTaskListCategoryMutation`, the client retry core) become pure Lean
functions translated statement-by-statement from the Go files.

Modelling conventions:
- `i64` millisecond timestamps are `Int` (no arithmetic in the modelled
  operations can overflow 64 bits on realistic inputs, so no wraparound is
  applied); SQL `integer` versions are `Int`.
- UUIDs are abstract identifiers `Uid := Nat`; the linear order on `Nat`
  stands for uuid byte order, which is all the SQL comparisons use.
- JSON payloads are stored verbatim by the server, so they are an opaque
  type `Payload := String`.
- `RFC3339` rendering of a timestamp in acks is injective in the
  millisecond value, so acks carry the raw milliseconds.
- The `syncx` extractor package is not part of the given sources; push
  functions therefore take the already-extracted item (the extractor's
  output struct), which is exactly the data the Go services consume.
-/

namespace ToolBridge

abbrev Ms := Int
abbrev Uid := Nat
abbrev Owner := String
abbrev Payload := String

/-- Replace the first element satisfying `p` by its image under `f`
(the effect of an SQL `UPDATE ... WHERE key = ...` on a keyed table). -/
def updateFirst (p : α → Bool) (f : α → α) : List α → List α
  | [] => []
  | x :: xs => if p x then f x :: xs else x :: updateFirst p f xs

theorem find?_updateFirst {p : α → Bool} {f : α → α} {t : List α} {r : α}
    (hf : t.find? p = some r) (hp : p (f r) = true) :
    (updateFirst p f t).find? p = some (f r) := by
  induction t with
  | nil => simp [List.find?] at hf
  | cons x xs ih =>
    by_cases hx : p x = true
    · simp [List.find?, hx] at hf
      subst hf
      simp [updateFirst, hx, List.find?, hp]
    · simp only [List.find?, Bool.not_eq_true] at hf
      rw [Bool.not_eq_true] at hx
      simp [hx] at hf
      simp [updateFirst, hx, List.find?, ih hf]

theorem updateFirst_eq_of_fix {p : α → Bool} {f : α → α} {t : List α} {r : α}
    (hf : t.find? p = some r) (hfix : f r = r) :
    updateFirst p f t = t := by
  induction t with
  | nil => simp [List.find?] at hf
  | cons x xs ih =>
    by_cases hx : p x = true
    · simp [List.find?, hx] at hf
      subst hf
      simp [updateFirst, hx, hfix]
    · rw [Bool.not_eq_true] at hx
      simp [List.find?, hx] at hf
      simp [updateFirst, hx, ih hf]

theorem mem_updateFirst {p : α → Bool} {f : α → α} {t : List α} {a : α}
    (ha : a ∈ updateFirst p f t) : a ∈ t ∨ ∃ b ∈ t, a = f b := by
  induction t with
  | nil => simp [updateFirst] at ha
  | cons x xs ih =>
    by_cases hx : p x = true
    · simp [updateFirst, hx] at ha
      rcases ha with h | h
      · exact Or.inr ⟨x, List.mem_cons_self x xs, h⟩
      · exact Or.inl (List.mem_cons_of_mem x h)
    · rw [Bool.not_eq_true] at hx
      simp only [updateFirst, hx, Bool.false_eq_true, if_false, List.mem_cons] at ha
      rcases ha with h | h
      · exact Or.inl (h ▸ List.mem_cons_self x xs)
      · rcases ih h with h' | ⟨b, hb, hab⟩
        · exact Or.inl (List.mem_cons_of_mem x h')
        · exact Or.inr ⟨b, List.mem_cons_of_mem x hb, hab⟩

/-! ### Entity rows

Each entity kind is stored in its own relation keyed by `(owner_id, uid)`
with columns `updated_at_ms`, `deleted_at_ms`, `version`, `payload_json`
plus kind-specific parent columns (`comment.parent_type`,
`comment.parent_uid`; `chat_message.chat_uid`). -/

/-- A row of the generic entity shape (`note`, `task`, `chat`, `task_list`). -/
structure EntityRow where
  owner : Owner
  uid : Uid
  updatedAtMs : Ms
  deletedAtMs : Option Ms
  version : Int
  payload : Payload
deriving DecidableEq

/-- A row of the `comment` relation (adds the polymorphic parent ref). -/
structure CommentRow where
  owner : Owner
  uid : Uid
  updatedAtMs : Ms
  deletedAtMs : Option Ms
  version : Int
  payload : Payload
  parentType : String
  parentUid : Uid
deriving DecidableEq

/-- A row of the `chat_message` relation (adds the chat parent ref). -/
structure ChatMessageRow where
  owner : Owner
  uid : Uid
  updatedAtMs : Ms
  deletedAtMs : Option Ms
  version : Int
  payload : Payload
  chatUid : Uid
deriving DecidableEq

def findEntity (t : List EntityRow) (o : Owner) (u : Uid) : Option EntityRow :=
  t.find? fun r => r.owner == o && r.uid == u

def findComment (t : List CommentRow) (o : Owner) (u : Uid) : Option CommentRow :=
  t.find? fun r => r.owner == o && r.uid == u

def findChatMessage (t : List ChatMessageRow) (o : Owner) (u : Uid) :
    Option ChatMessageRow :=
  t.find? fun r => r.owner == o && r.uid == u

/-! ### Sync push items and acks -/

/-- `syncx.ExtractComment` output: sync metadata plus parent fields lifted
out of the client JSON; `payload` is the item serialized back verbatim
(`json.Marshal(item)`). -/
structure CommentItem where
  uid : Uid
  updatedAtMs : Ms
  deletedAtMs : Option Ms
  version : Int
  parentType : String
  parentUid : Uid
  payload : Payload
deriving DecidableEq

/-- `syncx.ExtractChatMessage` output. -/
structure ChatMessageItem where
  uid : Uid
  updatedAtMs : Ms
  deletedAtMs : Option Ms
  version : Int
  chatUid : Uid
  payload : Payload
deriving DecidableEq

/-- Per-item push acknowledgement `(uid, version, updated_at, error?)`.
`updatedAtMs` carries the milliseconds that the Go code renders RFC3339. -/
structure PushAck where
  uid : Uid
  version : Int
  updatedAtMs : Ms
  error : Option String
deriving DecidableEq

/-! ### Database state

`owner_state` is keyed by `owner_id`; the tables mirror the persisted
state layout of section 6 of the spec. -/

/-- A row of the `owner_state` relation. -/
structure OwnerState where
  owner : Owner
  epoch : Int
  lastWipeAt : Option Ms
  lastWipeBy : Option Owner
  createdAt : Ms
  updatedAt : Ms
deriving DecidableEq

/-- A `task_list_category` client payload map. The server stores it
verbatim; the only structure it reads is the `uid` field and the nested
`sync` block (`syncx.ExtractCommon`), plus the `jsonb_set` patch of
`sync.version` in the REST mutation layer. The remaining domain fields
are the opaque `body`. `uid` is optional because the REST mutation mints
one when the map carries none. -/
structure TLCPayload where
  uid : Option Uid
  syncUpdatedAtMs : Ms
  syncDeletedAtMs : Option Ms
  syncVersion : Int
  body : String
deriving DecidableEq

/-- A row of the `task_list_category` relation; `payload` is the client
map stored verbatim. -/
structure TLCRow where
  owner : Owner
  uid : Uid
  updatedAtMs : Ms
  deletedAtMs : Option Ms
  version : Int
  payload : TLCPayload
deriving DecidableEq

def findTLC (t : List TLCRow) (o : Owner) (u : Uid) : Option TLCRow :=
  t.find? fun r => r.owner == o && r.uid == u

/-- The relational store: one relation per entity kind plus `owner_state`. -/
structure DB where
  note : List EntityRow
  task : List EntityRow
  chat : List EntityRow
  taskList : List EntityRow
  taskListCategory : List TLCRow
  comment : List CommentRow
  chatMessage : List ChatMessageRow
  ownerState : List OwnerState
deriving DecidableEq

/-! ### LWW upsert (comments_service.go lines 109-133 and the analogous
SQL in the chat_message and task_list_category services)

`INSERT ... VALUES (..., GREATEST($5, 1), ...) ON CONFLICT (owner_id, uid)
DO UPDATE SET ... version = CASE WHEN EXCLUDED.updated_at_ms >
stored.updated_at_ms THEN stored.version + 1 ELSE stored.version END
WHERE EXCLUDED.updated_at_ms > stored.updated_at_ms`. -/

/-- The row inserted when `(owner_id, uid)` is absent: seeds
`version = GREATEST(v, 1)`. -/
def commentInsertRow (userID : Owner) (it : CommentItem) : CommentRow :=
  { owner := userID
    uid := it.uid
    updatedAtMs := it.updatedAtMs
    deletedAtMs := it.deletedAtMs
    version := max it.version 1
    payload := it.payload
    parentType := it.parentType
    parentUid := it.parentUid }

/-- The `DO UPDATE SET` applied to a conflicting stored row; the SQL
`WHERE` clause restricts it to strictly newer timestamps, and the `CASE`
on `version` repeats the same strict comparison. -/
def commentConflictUpdate (it : CommentItem) (r : CommentRow) : CommentRow :=
  if it.updatedAtMs > r.updatedAtMs then
    { r with
      payload := it.payload
      updatedAtMs := it.updatedAtMs
      deletedAtMs := it.deletedAtMs
      parentType := it.parentType
      parentUid := it.parentUid
      version := if it.updatedAtMs > r.updatedAtMs then r.version + 1
                 else r.version }
  else r

def upsertComment (t : List CommentRow) (userID : Owner) (it : CommentItem) :
    List CommentRow :=
  if (t.find? fun r => r.owner == userID && r.uid == it.uid).isSome then
    updateFirst (fun r => r.owner == userID && r.uid == it.uid)
      (commentConflictUpdate it) t
  else
    t ++ [commentInsertRow userID it]

def chatMessageInsertRow (userID : Owner) (it : ChatMessageItem) :
    ChatMessageRow :=
  { owner := userID
    uid := it.uid
    updatedAtMs := it.updatedAtMs
    deletedAtMs := it.deletedAtMs
    version := max it.version 1
    payload := it.payload
    chatUid := it.chatUid }

def chatMessageConflictUpdate (it : ChatMessageItem) (r : ChatMessageRow) :
    ChatMessageRow :=
  if it.updatedAtMs > r.updatedAtMs then
    { r with
      payload := it.payload
      updatedAtMs := it.updatedAtMs
      deletedAtMs := it.deletedAtMs
      chatUid := it.chatUid
      version := if it.updatedAtMs > r.updatedAtMs then r.version + 1
                 else r.version }
  else r

def upsertChatMessage (t : List ChatMessageRow) (userID : Owner)
    (it : ChatMessageItem) : List ChatMessageRow :=
  if (t.find? fun r => r.owner == userID && r.uid == it.uid).isSome then
    updateFirst (fun r => r.owner == userID && r.uid == it.uid)
      (chatMessageConflictUpdate it) t
  else
    t ++ [chatMessageInsertRow userID it]

/-! ### Push services -/

/-- `SELECT EXISTS(SELECT 1 FROM note WHERE owner_id = $1 AND uid = $2 AND
deleted_at_ms IS NULL)`. -/
def noteParentExists (notes : List EntityRow) (userID : Owner) (puid : Uid) :
    Bool :=
  notes.any fun r => r.owner == userID && r.uid == puid && r.deletedAtMs == none

def taskParentExists (tasks : List EntityRow) (userID : Owner) (puid : Uid) :
    Bool :=
  tasks.any fun r => r.owner == userID && r.uid == puid && r.deletedAtMs == none

def chatParentExists (chats : List EntityRow) (userID : Owner) (puid : Uid) :
    Bool :=
  chats.any fun r => r.owner == userID && r.uid == puid && r.deletedAtMs == none

/-- The parent validation of `PushCommentItem`: only performed when the
item is not a tombstone (`ext.DeletedAtMs == nil`); tombstones pass. -/
def commentParentGuard (db : DB) (userID : Owner) (it : CommentItem) : Bool :=
  match it.deletedAtMs with
  | some _ => true
  | none =>
    if it.parentType == "note" then
      noteParentExists db.note userID it.parentUid
    else
      taskParentExists db.task userID it.parentUid

/-- The parent validation of `PushChatMessageItem`: only performed when
the item is not a tombstone. -/
def chatMessageParentGuard (db : DB) (userID : Owner)
    (it : ChatMessageItem) : Bool :=
  match it.deletedAtMs with
  | some _ => true
  | none => chatParentExists db.chat userID it.chatUid

/-- `CommentService.PushCommentItem` (comments_service.go): validates the
parent type, checks the parent row for non-tombstones, performs the LWW
upsert, and reads back the server-authoritative `(version, updated_at_ms)`.
Infrastructure failures (query errors, JSON marshal errors) are not
modelled; they cannot occur in the pure embedding. -/
def PushCommentItem (db : DB) (userID : Owner) (it : CommentItem) :
    DB × PushAck :=
  if it.parentType != "note" && it.parentType != "task" then
    (db, { uid := it.uid
           version := it.version
           updatedAtMs := it.updatedAtMs
           error := some ("invalid parent_type: " ++ it.parentType) })
  else
    let parentOk := commentParentGuard db userID it
    if !parentOk then
      (db, { uid := it.uid
             version := it.version
             updatedAtMs := it.updatedAtMs
             error := some ("parent " ++ it.parentType ++ " not found") })
    else
      let t := upsertComment db.comment userID it
      match findComment t userID it.uid with
      | some r =>
        ({ db with comment := t },
         { uid := it.uid
           version := r.version
           updatedAtMs := r.updatedAtMs
           error := none })
      | none =>
        ({ db with comment := t },
         { uid := it.uid
           version := it.version
           updatedAtMs := it.updatedAtMs
           error := some "failed to confirm write" })

/-- `ChatMessageService.PushChatMessageItem` (part_000): checks the parent
chat for non-tombstones, performs the LWW upsert, and reads back the
server state. -/
def PushChatMessageItem (db : DB) (userID : Owner) (it : ChatMessageItem) :
    DB × PushAck :=
  let parentOk := chatMessageParentGuard db userID it
  if !parentOk then
    (db, { uid := it.uid
           version := it.version
           updatedAtMs := it.updatedAtMs
           error := some "parent chat not found" })
  else
    let t := upsertChatMessage db.chatMessage userID it
    match findChatMessage t userID it.uid with
    | some r =>
      ({ db with chatMessage := t },
       { uid := it.uid
         version := r.version
         updatedAtMs := r.updatedAtMs
         error := none })
    | none =>
      ({ db with chatMessage := t },
       { uid := it.uid
         version := it.version
         updatedAtMs := it.updatedAtMs
         error := some "failed to confirm write" })

/-! ### task_list_category push (part_000, `PushTaskListCategoryItem`) -/

def tlcInsertRow (userID : Owner) (u : Uid) (item : TLCPayload) : TLCRow :=
  { owner := userID
    uid := u
    updatedAtMs := item.syncUpdatedAtMs
    deletedAtMs := item.syncDeletedAtMs
    version := max item.syncVersion 1
    payload := item }

def tlcConflictUpdate (item : TLCPayload) (r : TLCRow) : TLCRow :=
  if item.syncUpdatedAtMs > r.updatedAtMs then
    { r with
      payload := item
      updatedAtMs := item.syncUpdatedAtMs
      deletedAtMs := item.syncDeletedAtMs
      version := if item.syncUpdatedAtMs > r.updatedAtMs then r.version + 1
                 else r.version }
  else r

def upsertTLC (t : List TLCRow) (userID : Owner) (u : Uid)
    (item : TLCPayload) : List TLCRow :=
  if (t.find? fun r => r.owner == userID && r.uid == u).isSome then
    updateFirst (fun r => r.owner == userID && r.uid == u)
      (tlcConflictUpdate item) t
  else
    t ++ [tlcInsertRow userID u item]

/-- `TaskListCategoryService.PushTaskListCategoryItem` (part_000):
extracts the sync metadata (`syncx.ExtractCommon`, which fails when the
payload carries no uid; the failure ack carries the zero uid standing for
the Go empty string), performs the LWW upsert, and reads back the server
state. -/
def PushTaskListCategoryItem (t : List TLCRow) (userID : Owner)
    (item : TLCPayload) : List TLCRow × PushAck :=
  match item.uid with
  | none =>
    (t, { uid := 0
          version := 0
          updatedAtMs := 0
          error := some "invalid payload: missing uid" })
  | some u =>
    let t' := upsertTLC t userID u item
    match findTLC t' userID u with
    | some r =>
      (t', { uid := u
             version := r.version
             updatedAtMs := r.updatedAtMs
             error := none })
    | none =>
      (t', { uid := u
             version := item.syncVersion
             updatedAtMs := item.syncUpdatedAtMs
             error := some "failed to confirm write" })

/-! ### Pull protocol (comments_service.go, `PullComments`)

The SQL query
`SELECT payload_json, deleted_at_ms, updated_at_ms, uid FROM comment
WHERE owner_id = $1 AND (updated_at_ms, uid) > ($2, $3) ORDER BY
updated_at_ms, uid LIMIT $4`
becomes filter, sort by the lexicographic key, take. -/

/-- SQL row comparison `(ms, uid) > (c.ms, c.uid)` (strict lexicographic). -/
def cursorLtB (c k : Ms × Uid) : Bool :=
  c.1 < k.1 || (c.1 == k.1 && c.2 < k.2)

/-- `ORDER BY updated_at_ms, uid` comparison (lexicographic `≤`). -/
def keyLeB (a b : Ms × Uid) : Bool :=
  a.1 < b.1 || (a.1 == b.1 && a.2 ≤ b.2)

def commentKey (r : CommentRow) : Ms × Uid := (r.updatedAtMs, r.uid)

/-- The `ORDER BY updated_at_ms, uid` ordering on comment rows. -/
def pullOrder (a b : CommentRow) : Prop :=
  keyLeB (commentKey a) (commentKey b) = true

instance : DecidableRel pullOrder := fun a b => by
  unfold pullOrder; infer_instance

def queryPullComments (t : List CommentRow) (userID : Owner)
    (cursor : Ms × Uid) (limit : Nat) : List CommentRow :=
  ((t.filter fun r =>
      r.owner == userID && cursorLtB cursor (commentKey r)).insertionSort
    pullOrder).take limit

/-- State of the Go result loop: accumulated upserts, accumulated deletes,
and the `(lastMs, lastUID)` pair (zero-initialised). -/
def pullStep (st : List Payload × List (Uid × Ms) × (Ms × Uid))
    (r : CommentRow) : List Payload × List (Uid × Ms) × (Ms × Uid) :=
  match r.deletedAtMs with
  | some d => (st.1, st.2.1 ++ [(r.uid, d)], (r.updatedAtMs, r.uid))
  | none => (st.1 ++ [r.payload], st.2.1, (r.updatedAtMs, r.uid))

/-- A pull page: upserts carry the stored payload verbatim, deletes carry
`(uid, deleted_at_ms)`, and `nextCursor` carries the pair that
`syncx.EncodeCursor` would encode (the codec is opaque and outside the
given sources). -/
structure PullResponse where
  upserts : List Payload
  deletes : List (Uid × Ms)
  nextCursor : Option (Ms × Uid)
deriving DecidableEq

/-- `CommentService.PullComments` (comments_service.go lines 163-232). -/
def PullComments (t : List CommentRow) (userID : Owner) (cursor : Ms × Uid)
    (limit : Nat) : PullResponse :=
  let rows := queryPullComments t userID cursor limit
  let st := rows.foldl pullStep ([], [], (0, 0))
  { upserts := st.1
    deletes := st.2.1
    nextCursor :=
      if st.1.length + st.2.1.length > 0 then some st.2.2 else none }

/-! ### Session registry (internal/session/store.go)

The in-memory map `session_id → session` becomes an association list;
`time.Time` values are milliseconds. -/

/-- An active sync session. -/
structure SessionRec where
  id : String
  userId : Owner
  createdAt : Ms
  expiresAt : Ms
  epoch : Int
deriving DecidableEq

/-- `Store.GetSession`: lookup, then expiry check
(`time.Now().UTC().After(session.ExpiresAt)` → not found). -/
def GetSession (sessions : List SessionRec) (now : Ms) (id : String) :
    Option SessionRec :=
  match sessions.find? fun s => s.id == id with
  | none => none
  | some s => if now > s.expiresAt then none else some s

/-- `Store.DeleteUserSessions`: removes every session of the user,
returning the number removed. -/
def DeleteUserSessions (sessions : List SessionRec) (userID : Owner) :
    List SessionRec × Nat :=
  (sessions.filter fun s => !(s.userId == userID),
   (sessions.filter fun s => s.userId == userID).length)

/-! ### Account wipe (internal/grpcapi/server.go, `WipeAccount`)

The wipe runs in one transaction: bump the epoch, delete the user's rows
from the fixed table list, commit; after commit the session registry's
`DeleteUserSessions` runs. Transactionality is modelled by a fault
parameter naming the step (if any) at which the database fails; on any
fault the deferred `tx.Rollback` leaves the state unchanged. -/

/-- The fixed list of tables the wipe deletes from (source order). -/
def wipeTables : List String := ["chat_message", "comment", "chat", "task", "note"]

/-- A step of the wipe transaction at which the database can fail. -/
inductive WipeStep where
  | beginTx
  | bumpEpoch
  | deleteTable (name : String)
  | commitTx
deriving DecidableEq

/-- Outcome of `WipeAccount`: the new epoch and per-table delete counts,
or an error. -/
inductive WipeResult where
  | ok (epoch : Int) (deleted : List (String × Nat))
  | err (msg : String)
deriving DecidableEq

/-- The epoch bump statement: `INSERT INTO owner_state(...) VALUES
($1, 2, NOW(), $1, NOW(), NOW()) ON CONFLICT (owner_id) DO UPDATE SET
epoch = owner_state.epoch + 1, last_wipe_at = NOW(), last_wipe_by =
EXCLUDED.last_wipe_by, updated_at = NOW() RETURNING epoch`. -/
def bumpEpochWipe (os : List OwnerState) (userID : Owner) (now : Ms) :
    List OwnerState × Int :=
  match os.find? fun s => s.owner == userID with
  | some s =>
    (updateFirst (fun s => s.owner == userID)
      (fun s => { s with
        epoch := s.epoch + 1
        lastWipeAt := some now
        lastWipeBy := some userID
        updatedAt := now }) os,
     s.epoch + 1)
  | none =>
    (os ++ [{ owner := userID
              epoch := 2
              lastWipeAt := some now
              lastWipeBy := some userID
              createdAt := now
              updatedAt := now }],
     2)

/-- `DELETE FROM <table> WHERE owner_id = $1` with its returned count. -/
def deleteOwnedEntities (t : List EntityRow) (userID : Owner) :
    List EntityRow × Nat :=
  (t.filter fun r => !(r.owner == userID),
   (t.filter fun r => r.owner == userID).length)

def deleteOwnedComments (t : List CommentRow) (userID : Owner) :
    List CommentRow × Nat :=
  (t.filter fun r => !(r.owner == userID),
   (t.filter fun r => r.owner == userID).length)

def deleteOwnedChatMessages (t : List ChatMessageRow) (userID : Owner) :
    List ChatMessageRow × Nat :=
  (t.filter fun r => !(r.owner == userID),
   (t.filter fun r => r.owner == userID).length)

/-- Server-process state: the database plus the in-memory session
registry. -/
structure ServerState where
  db : DB
  sessions : List SessionRec
deriving DecidableEq

/-- The epoch visible for a user: the stored `owner_state.epoch`, or the
lazy default 1 when no row exists (the `GetSyncState` default). -/
def epochOf (db : DB) (userID : Owner) : Int :=
  match db.ownerState.find? fun s => s.owner == userID with
  | some s => s.epoch
  | none => 1

/-- `Server.WipeAccount`: confirmation gate, then one transaction bumping
the epoch and deleting the user's rows from `wipeTables`, then session
invalidation after commit. A fault at any transaction step rolls the
whole transaction back. -/
def WipeAccount (st : ServerState) (userID : Owner) (confirm : String)
    (now : Ms) (fault : Option WipeStep) : ServerState × WipeResult :=
  if userID == "" then (st, .err "unauthorized")
  else if confirm != "WIPE" then
    (st, .err "confirmation required: must send confirm=WIPE")
  else if fault == some WipeStep.beginTx then
    (st, .err "transaction begin failed")
  else if fault == some WipeStep.bumpEpoch then
    (st, .err "epoch update failed")
  else if wipeTables.any (fun n => fault == some (WipeStep.deleteTable n)) then
    (st, .err "delete failed")
  else if fault == some WipeStep.commitTx then
    (st, .err "commit failed")
  else
    let (os, newEpoch) := bumpEpochWipe st.db.ownerState userID now
    let (cm, cmN) := deleteOwnedChatMessages st.db.chatMessage userID
    let (co, coN) := deleteOwnedComments st.db.comment userID
    let (ch, chN) := deleteOwnedEntities st.db.chat userID
    let (ta, taN) := deleteOwnedEntities st.db.task userID
    let (no, noN) := deleteOwnedEntities st.db.note userID
    let db' := { st.db with
      ownerState := os
      chatMessage := cm
      comment := co
      chat := ch
      task := ta
      note := no }
    let sessions' := (DeleteUserSessions st.sessions userID).1
    ({ db := db', sessions := sessions' },
     .ok newEpoch
       [("chat_message", cmN), ("comment", coN), ("chat", chN),
        ("task", taN), ("note", noN)])

/-! ### GetSyncState (internal/grpcapi/server.go) -/

/-- The response of `GetSyncState`. -/
structure UserSyncState where
  epoch : Int
  lastWipeAt : Option Ms
  lastWipeBy : Option Owner
deriving DecidableEq

/-- `Server.GetSyncState`: a single `SELECT` on `owner_state`; a missing
row (`pgx.ErrNoRows`) yields the default state `epoch = 1` instead of an
error. The returned `DB` component records that the handler performs no
write. -/
def GetSyncState (db : DB) (userID : Owner) :
    Except String UserSyncState × DB :=
  if userID == "" then (.error "unauthorized", db)
  else
    match db.ownerState.find? fun s => s.owner == userID with
    | none =>
      (.ok { epoch := 1, lastWipeAt := none, lastWipeBy := none }, db)
    | some s =>
      (.ok { epoch := s.epoch
             lastWipeAt := s.lastWipeAt
             lastWipeBy := s.lastWipeBy }, db)

/-! ### Client retry/transport core (part_004, `HTTPClient.doWithRetry`)

One logical call is driven against an environment listing the response
each successive HTTP attempt would receive; an exhausted list stands for
a transport-level error (`httpClient.Do` failing), which the Go code
returns without retrying. Backoff timing, header values and correlation
IDs do not affect the control flow and are not modelled. -/

/-- The response classes `doWithRetry` distinguishes. -/
inductive Resp where
  | ok (status : Nat)
  | unauthorized
  | conflictEpoch (epoch : Int)
  | conflictOther
  | tooMany
deriving DecidableEq

/-- What a logical call returns: a response handed to the caller, or an
error. -/
inductive RetryOutcome where
  | resp (r : Resp)
  | err (msg : String)
deriving DecidableEq

/-- `MaxRetries` (part_004): the maximum number of retry attempts. -/
def MaxRetries : Nat := 3

/-- `HTTPClient.doWithRetry`: executes one attempt and dispatches on the
status; 401, epoch-mismatch 409 and 429 recurse with `retryCount + 1`
after each handler's `retryCount >= MaxRetries` guard; other responses
return. The second component counts HTTP attempts performed. -/
def doWithRetry (devMode hasSessionMgr : Bool) (retryCount : Nat) :
    List Resp → RetryOutcome × Nat
  | [] => (.err "transport error", 1)
  | r :: rest =>
    match r with
    | .ok s => (.resp (.ok s), 1)
    | .unauthorized =>
      if MaxRetries ≤ retryCount then (.err "authentication failed", 1)
      else if devMode then (.err "authentication failed in dev mode", 1)
      else
        let p := doWithRetry devMode hasSessionMgr (retryCount + 1) rest
        (p.1, p.2 + 1)
    | .conflictEpoch _ =>
      if MaxRetries ≤ retryCount then (.err "epoch mismatch", 1)
      else if !hasSessionMgr then (.err "epoch mismatch", 1)
      else
        let p := doWithRetry devMode hasSessionMgr (retryCount + 1) rest
        (p.1, p.2 + 1)
    | .conflictOther => (.resp .conflictOther, 1)
    | .tooMany =>
      if MaxRetries ≤ retryCount then (.err "rate limited", 1)
      else
        let p := doWithRetry devMode hasSessionMgr (retryCount + 1) rest
        (p.1, p.2 + 1)

/-- `HTTPClient.Do`: entry point, starting at `retryCount = 0`. -/
def clientDo (devMode hasSessionMgr : Bool) (resps : List Resp) :
    RetryOutcome × Nat :=
  doWithRetry devMode hasSessionMgr 0 resps

/-! ### REST mutation layer (part_000, `ApplyTaskListCategoryMutation`) -/

/-- `MutationOpts`: optional optimistic-concurrency and override inputs. -/
structure MutationOpts where
  enforceVersion : Bool
  expectedVersion : Int
  forceTimestampMs : Option Ms
  setDeleted : Bool
deriving DecidableEq

/-- Errors of the REST mutation path. -/
inductive MutationErr where
  | versionMismatch (expected actual : Int)
  | mutation (msg : String)
deriving DecidableEq

/-- The full entity returned by a REST mutation. -/
structure RESTItem where
  uid : Uid
  version : Int
  updatedAtMs : Ms
  deletedAtMs : Option Ms
  payload : TLCPayload
deriving DecidableEq

/-- Modelled from the spec: `syncx.EnsureMonotonicTimestamp` is not among
the given sources; section 4.I fixes it as `max(now_ms, stored_ms + 1)`. -/
def EnsureMonotonicTimestamp (now stored : Ms) : Ms := max now (stored + 1)

/-- Modelled from the spec: `syncx.BuildServerMutation` is not among the
given sources; section 4.I has it stamp the server-chosen write timestamp
into the payload's sync block, marking deletion when requested. -/
def BuildServerMutation (p : TLCPayload) (ts : Ms) (setDeleted : Bool) :
    TLCPayload :=
  { p with
    syncUpdatedAtMs := ts
    syncDeletedAtMs := if setDeleted then some ts else p.syncDeletedAtMs }

/-- `TaskListCategoryService.ApplyTaskListCategoryMutation` (part_000):
resolve the uid (minting `freshUid` when the payload carries none), probe
the existing row, enforce `expected_version`, compute the write
timestamp, delegate to the LWW push, patch `payload.sync.version` to the
server value (`jsonb_set`), commit. Every error path returns before the
commit, so the deferred rollback leaves the table unchanged. -/
def ApplyTaskListCategoryMutation (t : List TLCRow) (userID : Owner)
    (payload : TLCPayload) (freshUid : Uid) (now : Ms)
    (opts : MutationOpts) : List TLCRow × Except MutationErr RESTItem :=
  let categoryUID := payload.uid.getD freshUid
  let payload1 := { payload with uid := some categoryUID }
  let existing := findTLC t userID categoryUID
  let isNew := existing.isNone
  let existingVersion := (existing.map TLCRow.version).getD 0
  let existingMs := (existing.map TLCRow.updatedAtMs).getD 0
  if !isNew && opts.enforceVersion
      && !(existingVersion == opts.expectedVersion) then
    (t, .error (.versionMismatch opts.expectedVersion existingVersion))
  else
    let timestampMs :=
      match opts.forceTimestampMs with
      | some ts => ts
      | none => if isNew then now else EnsureMonotonicTimestamp now existingMs
    let mutated := BuildServerMutation payload1 timestampMs opts.setDeleted
    let pushed := PushTaskListCategoryItem t userID mutated
    match (pushed.2).error with
    | some msg => (t, .error (.mutation msg))
    | none =>
      let patched :=
        updateFirst (fun r => r.owner == userID && r.uid == categoryUID)
          (fun r =>
            { r with payload := { r.payload with syncVersion := (pushed.2).version } })
          pushed.1
      (patched,
       .ok { uid := (pushed.2).uid
             version := (pushed.2).version
             updatedAtMs := (pushed.2).updatedAtMs
             deletedAtMs := if opts.setDeleted then some timestampMs else none
             payload := { mutated with syncVersion := (pushed.2).version } })

/-! ## Claims -/

/-- C9: for every session id, `GetSession` returns not-found whenever the
stored session's `expires_at` is earlier than the current time, and an
expired session is never returned as valid. -/
theorem getSession_expired_not_found (sessions : List SessionRec) (now : Ms)
    (id : String) :
    (∀ s, (sessions.find? fun s => s.id == id) = some s →
      s.expiresAt < now → GetSession sessions now id = none) ∧
    (∀ s, GetSession sessions now id = some s → now ≤ s.expiresAt) := by
  constructor
  · intro s hf hexp
    simp only [GetSession, hf]
    rw [if_pos hexp]
  · intro s hg
    unfold GetSession at hg
    cases hf : sessions.find? fun s => s.id == id with
    | none => rw [hf] at hg; exact absurd hg (by simp)
    | some s' =>
      rw [hf] at hg
      simp only [] at hg
      by_cases h : now > s'.expiresAt
      · rw [if_pos h] at hg; exact absurd hg (by simp)
      · rw [if_neg h] at hg
        injection hg with h2
        subst h2
        exact le_of_not_lt h

/-- C9 witness: a concrete session expired at 100 queried at time 200 is
not found. -/
theorem getSession_expired_not_found_witness :
    GetSession [{ id := "s1", userId := "u1", createdAt := 0,
                  expiresAt := 100, epoch := 1 }] 200 "s1" = none :=
  (getSession_expired_not_found
    [{ id := "s1", userId := "u1", createdAt := 0,
       expiresAt := 100, epoch := 1 }] 200 "s1").1
    { id := "s1", userId := "u1", createdAt := 0,
      expiresAt := 100, epoch := 1 } (by decide) (by decide)

/-- C10: for an authenticated user with no `owner_state` row,
`GetSyncState` succeeds with epoch 1 and no wipe metadata, and leaves the
store untouched. -/
theorem getSyncState_missing_row_default (db : DB) (userID : Owner)
    (hu : userID ≠ "")
    (hnone : (db.ownerState.find? fun s => s.owner == userID) = none) :
    GetSyncState db userID =
      (.ok { epoch := 1, lastWipeAt := none, lastWipeBy := none }, db) := by
  unfold GetSyncState
  rw [if_neg (by simpa using hu)]
  rw [hnone]

/-- C10 witness: on the empty store, the state of user `u1` is epoch 1
with no wipe metadata. -/
theorem getSyncState_missing_row_default_witness :
    GetSyncState ⟨[], [], [], [], [], [], [], []⟩ "u1" =
      (.ok { epoch := 1, lastWipeAt := none, lastWipeBy := none },
       ⟨[], [], [], [], [], [], [], []⟩) :=
  getSyncState_missing_row_default ⟨[], [], [], [], [], [], [], []⟩ "u1"
    (by decide) (by decide)

/-- C8: for an authenticated user, `WipeAccount` with a confirmation
token other than the literal `"WIPE"` changes nothing and fails with the
confirmation-required error; and whenever any step of the wipe fails, the
whole transaction rolls back and the server state (epoch, rows, sessions)
is unchanged. -/
theorem wipeAccount_confirmation_and_rollback (st : ServerState)
    (userID : Owner) (confirm : String) (now : Ms)
    (fault : Option WipeStep) (hu : userID ≠ "") :
    (confirm ≠ "WIPE" →
      WipeAccount st userID confirm now fault =
        (st, .err "confirmation required: must send confirm=WIPE")) ∧
    (∀ m, (WipeAccount st userID confirm now fault).2 = .err m →
      (WipeAccount st userID confirm now fault).1 = st) := by
  have hu' : (userID == "") = false := by simpa using hu
  constructor
  · intro hc
    unfold WipeAccount
    rw [if_neg (by simp [hu'])]
    rw [if_pos (by simpa using hc)]
  · intro m
    unfold WipeAccount
    split
    · intro _; rfl
    split
    · intro _; rfl
    split
    · intro _; rfl
    split
    · intro _; rfl
    split
    · intro _; rfl
    split
    · intro _; rfl
    · intro h
      exact absurd h (by simp)

/-- C8 witness: with confirmation token `"NO"`, a concrete wipe request
is rejected and the state is returned unchanged. -/
theorem wipeAccount_confirmation_and_rollback_witness :
    WipeAccount ⟨⟨[], [], [], [], [], [], [], []⟩, []⟩ "u1" "NO" 0 none =
      (⟨⟨[], [], [], [], [], [], [], []⟩, []⟩,
       .err "confirmation required: must send confirm=WIPE") :=
  (wipeAccount_confirmation_and_rollback
    ⟨⟨[], [], [], [], [], [], [], []⟩, []⟩ "u1" "NO" 0 none
    (by decide)).1 (by decide)

theorem doWithRetry_attempts_le (devMode hasSessionMgr : Bool) :
    ∀ (resps : List Resp) (c : Nat),
      (doWithRetry devMode hasSessionMgr c resps).2 ≤ (MaxRetries - c) + 1 := by
  intro resps
  induction resps with
  | nil => intro c; simp [doWithRetry]
  | cons r rest ih =>
    intro c
    cases r with
    | ok s => simp [doWithRetry]
    | conflictOther => simp [doWithRetry]
    | unauthorized =>
      simp only [doWithRetry]
      split
      · simp
      · split
        · simp
        · have h := ih (c + 1)
          simp only [MaxRetries] at *
          omega
    | conflictEpoch e =>
      simp only [doWithRetry]
      split
      · simp
      · split
        · simp
        · have h := ih (c + 1)
          simp only [MaxRetries] at *
          omega
    | tooMany =>
      simp only [doWithRetry]
      split
      · simp
      · have h := ih (c + 1)
        simp only [MaxRetries] at *
        omega

/-- C6 (amended): every logical client call performs at most
`MaxRetries + 1 = 4` HTTP attempts — one initial attempt plus at most
`MaxRetries = 3` retries across the 401, epoch-mismatch 409 and 429
recovery paths — and the retry recursion always terminates with either a
response or an error (`doWithRetry` is a total function on the attempt
trace). -/
theorem clientDo_attempts_bounded (devMode hasSessionMgr : Bool)
    (resps : List Resp) :
    (clientDo devMode hasSessionMgr resps).2 ≤ MaxRetries + 1 := by
  have h := doWithRetry_attempts_le devMode hasSessionMgr resps 0
  simpa [clientDo] using h

/-- C6 counterexample: four consecutive 401 responses drive four HTTP
attempts before the client gives up — the handlers compare `retryCount`
(which starts at 0 for the first attempt) against `MaxRetries = 3`, so
the claimed bound of 3 total attempts is exceeded. -/
theorem clientDo_four_attempts :
    clientDo false true
      [.unauthorized, .unauthorized, .unauthorized, .unauthorized] =
      (.err "authentication failed", 4) ∧ ¬(4 ≤ 3) :=
  ⟨rfl, by decide⟩

/-- C5: for every push whose `(owner_id, uid)` is absent, the inserted
row seeds `version = GREATEST(pushed version, 1)`; and any upsert
preserves the table-wide invariant `version ≥ 1` (shown for the comment
and task_list_category stores, the two services among the sources cited). -/
theorem upsert_seeds_and_preserves_version :
    (∀ (t : List CommentRow) (userID : Owner) (it : CommentItem),
      (t.find? fun r => r.owner == userID && r.uid == it.uid) = none →
      upsertComment t userID it = t ++ [commentInsertRow userID it]
        ∧ (commentInsertRow userID it).version = max it.version 1) ∧
    (∀ (t : List TLCRow) (userID : Owner) (u : Uid) (item : TLCPayload),
      (t.find? fun r => r.owner == userID && r.uid == u) = none →
      upsertTLC t userID u item = t ++ [tlcInsertRow userID u item]
        ∧ (tlcInsertRow userID u item).version = max item.syncVersion 1) ∧
    (∀ (t : List CommentRow) (userID : Owner) (it : CommentItem),
      (∀ r ∈ t, 1 ≤ r.version) →
      ∀ r ∈ upsertComment t userID it, 1 ≤ r.version) ∧
    (∀ (t : List TLCRow) (userID : Owner) (u : Uid) (item : TLCPayload),
      (∀ r ∈ t, 1 ≤ r.version) →
      ∀ r ∈ upsertTLC t userID u item, 1 ≤ r.version) := by
  refine ⟨?_, ?_, ?_, ?_⟩
  · intro t userID it h
    exact ⟨by simp [upsertComment, h], rfl⟩
  · intro t userID u item h
    exact ⟨by simp [upsertTLC, h], rfl⟩
  · intro t userID it hall r hr
    unfold upsertComment at hr
    by_cases hf : ((t.find? fun r => r.owner == userID && r.uid == it.uid)).isSome
    · rw [if_pos hf] at hr
      rcases mem_updateFirst hr with h | ⟨b, hb, rfl⟩
      · exact hall r h
      · have hb1 := hall b hb
        unfold commentConflictUpdate
        split
        · show 1 ≤ b.version + 1
          omega
        · exact hb1
    · rw [if_neg hf] at hr
      rcases List.mem_append.mp hr with h | h
      · exact hall r h
      · rcases List.mem_singleton.mp h with rfl
        simp [commentInsertRow]
  · intro t userID u item hall r hr
    unfold upsertTLC at hr
    by_cases hf : ((t.find? fun r => r.owner == userID && r.uid == u)).isSome
    · rw [if_pos hf] at hr
      rcases mem_updateFirst hr with h | ⟨b, hb, rfl⟩
      · exact hall r h
      · have hb1 := hall b hb
        unfold tlcConflictUpdate
        split
        · show 1 ≤ b.version + 1
          omega
        · exact hb1
    · rw [if_neg hf] at hr
      rcases List.mem_append.mp hr with h | h
      · exact hall r h
      · rcases List.mem_singleton.mp h with rfl
        simp [tlcInsertRow]

/-- C5 witness: inserting a comment with client version 0 into the empty
store seeds `version = max 0 1 = 1`. -/
theorem upsert_seeds_and_preserves_version_witness :
    upsertComment [] "u1"
        { uid := 1, updatedAtMs := 5, deletedAtMs := none, version := 0,
          parentType := "note", parentUid := 2, payload := "p" } =
      [] ++ [commentInsertRow "u1"
        { uid := 1, updatedAtMs := 5, deletedAtMs := none, version := 0,
          parentType := "note", parentUid := 2, payload := "p" }] ∧
    (commentInsertRow "u1"
        { uid := 1, updatedAtMs := 5, deletedAtMs := none, version := 0,
          parentType := "note", parentUid := 2, payload := "p" }).version =
      max 0 1 :=
  upsert_seeds_and_preserves_version.1 [] "u1"
    { uid := 1, updatedAtMs := 5, deletedAtMs := none, version := 0,
      parentType := "note", parentUid := 2, payload := "p" } (by rfl)

/-- C7: a REST mutation carrying `expected_version` against an existing
row whose stored version differs fails with a version-mismatch error
reporting the expected and actual values, and the table is unchanged (no
write occurs). -/
theorem applyTLCMutation_version_mismatch (t : List TLCRow) (userID : Owner)
    (payload : TLCPayload) (freshUid : Uid) (now : Ms)
    (opts : MutationOpts) (r : TLCRow)
    (hfound : findTLC t userID (payload.uid.getD freshUid) = some r)
    (henf : opts.enforceVersion = true)
    (hneq : r.version ≠ opts.expectedVersion) :
    ApplyTaskListCategoryMutation t userID payload freshUid now opts =
      (t, .error (.versionMismatch opts.expectedVersion r.version)) := by
  unfold ApplyTaskListCategoryMutation
  simp only [hfound, henf, Option.isNone_some, Option.map_some, Option.getD_some]
  rw [if_pos (by simp [hneq])]
  simp

/-- C7 witness: a concrete mutation with `expected_version = 3` against a
row at version 4 fails with `{expected: 3, actual: 4}` and leaves the
table unchanged. -/
theorem applyTLCMutation_version_mismatch_witness :
    ApplyTaskListCategoryMutation
      [{ owner := "u1", uid := 7, updatedAtMs := 1000, deletedAtMs := none,
         version := 4,
         payload := { uid := some 7, syncUpdatedAtMs := 1000,
                      syncDeletedAtMs := none, syncVersion := 4,
                      body := "b" } }]
      "u1"
      { uid := some 7, syncUpdatedAtMs := 1000, syncDeletedAtMs := none,
        syncVersion := 4, body := "b2" }
      99 2000
      { enforceVersion := true, expectedVersion := 3,
        forceTimestampMs := none, setDeleted := false } =
      ([{ owner := "u1", uid := 7, updatedAtMs := 1000, deletedAtMs := none,
          version := 4,
          payload := { uid := some 7, syncUpdatedAtMs := 1000,
                       syncDeletedAtMs := none, syncVersion := 4,
                       body := "b" } }],
       .error (.versionMismatch 3 4)) :=
  applyTLCMutation_version_mismatch _ "u1" _ 99 2000 _ _ (by rfl) (by rfl)
    (by decide)

/-- When the parent-type and parent-existence guards pass,
`PushCommentItem` is the upsert followed by the read-back ack. -/
theorem PushCommentItem_guards_pass (db : DB) (userID : Owner)
    (it : CommentItem)
    (hpt : (it.parentType != "note" && it.parentType != "task") = false)
    (hguard : commentParentGuard db userID it = true) :
    PushCommentItem db userID it =
      match findComment (upsertComment db.comment userID it) userID it.uid with
      | some r =>
        ({ db with comment := upsertComment db.comment userID it },
         { uid := it.uid
           version := r.version
           updatedAtMs := r.updatedAtMs
           error := none })
      | none =>
        ({ db with comment := upsertComment db.comment userID it },
         { uid := it.uid
           version := it.version
           updatedAtMs := it.updatedAtMs
           error := some "failed to confirm write" }) := by
  unfold PushCommentItem
  rw [hpt, hguard]
  simp

/-- When the parent-existence guard passes, `PushChatMessageItem` is the
upsert followed by the read-back ack. -/
theorem PushChatMessageItem_guards_pass (db : DB) (userID : Owner)
    (it : ChatMessageItem)
    (hguard : chatMessageParentGuard db userID it = true) :
    PushChatMessageItem db userID it =
      match findChatMessage (upsertChatMessage db.chatMessage userID it)
          userID it.uid with
      | some r =>
        ({ db with chatMessage := upsertChatMessage db.chatMessage userID it },
         { uid := it.uid
           version := r.version
           updatedAtMs := r.updatedAtMs
           error := none })
      | none =>
        ({ db with chatMessage := upsertChatMessage db.chatMessage userID it },
         { uid := it.uid
           version := it.version
           updatedAtMs := it.updatedAtMs
           error := some "failed to confirm write" }) := by
  unfold PushChatMessageItem
  rw [hguard]
  simp

/-- C1: for a push whose `(owner_id, uid)` already exists (shown for the
comment and chat_message services, the ones among the given sources): if
the pushed `updated_at_ms` is strictly greater than the stored one, the
row's payload, timestamps and parent refs are replaced and `version`
becomes the stored version + 1; if it is less than or equal, the store is
unchanged and the ack returns the stored `(version, updated_at_ms)`. -/
theorem push_lww_update_iff_newer :
    (∀ (db : DB) (userID : Owner) (it : CommentItem) (r : CommentRow),
      findComment db.comment userID it.uid = some r →
      (it.parentType != "note" && it.parentType != "task") = false →
      commentParentGuard db userID it = true →
      ((it.updatedAtMs > r.updatedAtMs →
        PushCommentItem db userID it =
          ({ db with comment := updateFirst
                         (fun x => x.owner == userID && x.uid == it.uid)
                         (commentConflictUpdate it) db.comment },
           { uid := it.uid
             version := r.version + 1
             updatedAtMs := it.updatedAtMs
             error := none }) ∧
        findComment (PushCommentItem db userID it).1.comment userID it.uid =
          some { owner := r.owner
                 uid := r.uid
                 updatedAtMs := it.updatedAtMs
                 deletedAtMs := it.deletedAtMs
                 version := r.version + 1
                 payload := it.payload
                 parentType := it.parentType
                 parentUid := it.parentUid }) ∧
       (it.updatedAtMs ≤ r.updatedAtMs →
        PushCommentItem db userID it =
          (db, { uid := it.uid
                 version := r.version
                 updatedAtMs := r.updatedAtMs
                 error := none })))) ∧
    (∀ (db : DB) (userID : Owner) (it : ChatMessageItem) (r : ChatMessageRow),
      findChatMessage db.chatMessage userID it.uid = some r →
      chatMessageParentGuard db userID it = true →
      ((it.updatedAtMs > r.updatedAtMs →
        PushChatMessageItem db userID it =
          ({ db with chatMessage := updateFirst
                         (fun x => x.owner == userID && x.uid == it.uid)
                         (chatMessageConflictUpdate it) db.chatMessage },
           { uid := it.uid
             version := r.version + 1
             updatedAtMs := it.updatedAtMs
             error := none }) ∧
        findChatMessage (PushChatMessageItem db userID it).1.chatMessage
            userID it.uid =
          some { owner := r.owner
                 uid := r.uid
                 updatedAtMs := it.updatedAtMs
                 deletedAtMs := it.deletedAtMs
                 version := r.version + 1
                 payload := it.payload
                 chatUid := it.chatUid }) ∧
       (it.updatedAtMs ≤ r.updatedAtMs →
        PushChatMessageItem db userID it =
          (db, { uid := it.uid
                 version := r.version
                 updatedAtMs := r.updatedAtMs
                 error := none })))) := by
  constructor
  · intro db userID it r hr hpt hguard
    have hr' : (db.comment.find? fun x => x.owner == userID && x.uid == it.uid)
        = some r := hr
    have hsome :
        (db.comment.find? fun x => x.owner == userID && x.uid == it.uid).isSome
          = true := by rw [hr']; rfl
    have hkey := List.find?_some hr'
    have hkey2 : ((commentConflictUpdate it r).owner == userID
        && (commentConflictUpdate it r).uid == it.uid) = true := by
      unfold commentConflictUpdate; split <;> exact hkey
    have hupsert : upsertComment db.comment userID it =
        updateFirst (fun x => x.owner == userID && x.uid == it.uid)
          (commentConflictUpdate it) db.comment := by
      unfold upsertComment; rw [if_pos hsome]
    have hfind2 : findComment (upsertComment db.comment userID it) userID
        it.uid = some (commentConflictUpdate it r) := by
      rw [hupsert]; exact find?_updateFirst hr' hkey2
    constructor
    · intro hgt
      have hfr : commentConflictUpdate it r =
          { owner := r.owner
            uid := r.uid
            updatedAtMs := it.updatedAtMs
            deletedAtMs := it.deletedAtMs
            version := r.version + 1
            payload := it.payload
            parentType := it.parentType
            parentUid := it.parentUid } := by
        unfold commentConflictUpdate; rw [if_pos hgt, if_pos hgt]
      constructor
      · rw [PushCommentItem_guards_pass db userID it hpt hguard, hfind2,
          hupsert, hfr]
      · rw [PushCommentItem_guards_pass db userID it hpt hguard, hfind2]
        show findComment (upsertComment db.comment userID it) userID it.uid = _
        rw [hfind2, hfr]
    · intro hle
      have hfr : commentConflictUpdate it r = r := by
        unfold commentConflictUpdate; rw [if_neg (not_lt.mpr hle)]
      have hupd : updateFirst
          (fun x => x.owner == userID && x.uid == it.uid)
          (commentConflictUpdate it) db.comment = db.comment :=
        updateFirst_eq_of_fix hr' hfr
      rw [PushCommentItem_guards_pass db userID it hpt hguard, hfind2, hfr,
        hupsert, hupd]
  · intro db userID it r hr hguard
    have hr' : (db.chatMessage.find? fun x =>
        x.owner == userID && x.uid == it.uid) = some r := hr
    have hsome : (db.chatMessage.find? fun x =>
        x.owner == userID && x.uid == it.uid).isSome = true := by
      rw [hr']; rfl
    have hkey := List.find?_some hr'
    have hkey2 : ((chatMessageConflictUpdate it r).owner == userID
        && (chatMessageConflictUpdate it r).uid == it.uid) = true := by
      unfold chatMessageConflictUpdate; split <;> exact hkey
    have hupsert : upsertChatMessage db.chatMessage userID it =
        updateFirst (fun x => x.owner == userID && x.uid == it.uid)
          (chatMessageConflictUpdate it) db.chatMessage := by
      unfold upsertChatMessage; rw [if_pos hsome]
    have hfind2 : findChatMessage (upsertChatMessage db.chatMessage userID it)
        userID it.uid = some (chatMessageConflictUpdate it r) := by
      rw [hupsert]; exact find?_updateFirst hr' hkey2
    constructor
    · intro hgt
      have hfr : chatMessageConflictUpdate it r =
          { owner := r.owner
            uid := r.uid
            updatedAtMs := it.updatedAtMs
            deletedAtMs := it.deletedAtMs
            version := r.version + 1
            payload := it.payload
            chatUid := it.chatUid } := by
        unfold chatMessageConflictUpdate; rw [if_pos hgt, if_pos hgt]
      constructor
      · rw [PushChatMessageItem_guards_pass db userID it hguard, hfind2,
          hupsert, hfr]
      · rw [PushChatMessageItem_guards_pass db userID it hguard, hfind2]
        show findChatMessage (upsertChatMessage db.chatMessage userID it)
          userID it.uid = _
        rw [hfind2, hfr]
    · intro hle
      have hfr : chatMessageConflictUpdate it r = r := by
        unfold chatMessageConflictUpdate; rw [if_neg (not_lt.mpr hle)]
      have hupd : updateFirst
          (fun x => x.owner == userID && x.uid == it.uid)
          (chatMessageConflictUpdate it) db.chatMessage = db.chatMessage :=
        updateFirst_eq_of_fix hr' hfr
      rw [PushChatMessageItem_guards_pass db userID it hguard, hfind2, hfr,
        hupsert, hupd]

/-- C1 witness: pushing a stale tombstone (ms 1500) over a stored comment
at ms 2000 is a no-op returning the stored `(version, updated_at_ms)`. -/
theorem push_lww_update_iff_newer_witness :
    PushCommentItem
      ⟨[], [], [], [], [],
       [{ owner := "u1", uid := 1, updatedAtMs := 2000, deletedAtMs := none,
          version := 1, payload := "old", parentType := "note",
          parentUid := 2 }], [], []⟩
      "u1"
      { uid := 1, updatedAtMs := 1500, deletedAtMs := some 1500, version := 1,
        parentType := "note", parentUid := 2, payload := "new" } =
      (⟨[], [], [], [], [],
        [{ owner := "u1", uid := 1, updatedAtMs := 2000, deletedAtMs := none,
           version := 1, payload := "old", parentType := "note",
           parentUid := 2 }], [], []⟩,
       { uid := 1, version := 1, updatedAtMs := 2000, error := none }) :=
  ((push_lww_update_iff_newer.1
    ⟨[], [], [], [], [],
     [{ owner := "u1", uid := 1, updatedAtMs := 2000, deletedAtMs := none,
        version := 1, payload := "old", parentType := "note",
        parentUid := 2 }], [], []⟩
    "u1"
    { uid := 1, updatedAtMs := 1500, deletedAtMs := some 1500, version := 1,
      parentType := "note", parentUid := 2, payload := "new" }
    { owner := "u1", uid := 1, updatedAtMs := 2000, deletedAtMs := none,
      version := 1, payload := "old", parentType := "note", parentUid := 2 }
    (by rfl) (by rfl) (by rfl)).2) (by decide)

theorem find?_append_of_none {p : α → Bool} {l : List α}
    (h : l.find? p = none) (a : α) :
    (l ++ [a]).find? p = if p a then some a else none := by
  induction l with
  | nil =>
    show (match p a with | true => some a | false => none) = _
    cases hp : p a <;> simp [hp]
  | cons x xs ih =>
    cases hx : p x with
    | true => simp [List.find?, hx] at h
    | false =>
      simp only [List.find?, hx] at h
      simpa [List.find?, hx] using ih h

theorem findComment_upsert_isSome (t : List CommentRow) (userID : Owner)
    (it : CommentItem) :
    ∃ r, findComment (upsertComment t userID it) userID it.uid = some r := by
  unfold upsertComment
  by_cases hf : ((t.find? fun r => r.owner == userID && r.uid == it.uid)).isSome
  · rw [if_pos hf]
    obtain ⟨r, hr⟩ := Option.isSome_iff_exists.mp hf
    have hkey := List.find?_some hr
    have hkey2 : ((commentConflictUpdate it r).owner == userID
        && (commentConflictUpdate it r).uid == it.uid) = true := by
      unfold commentConflictUpdate; split <;> exact hkey
    exact ⟨commentConflictUpdate it r, find?_updateFirst hr hkey2⟩
  · rw [if_neg hf]
    have hnone := Option.not_isSome_iff_eq_none.mp hf
    refine ⟨commentInsertRow userID it, ?_⟩
    show ((t ++ [commentInsertRow userID it]).find? _) = _
    rw [find?_append_of_none hnone]
    simp [commentInsertRow]

theorem findChatMessage_upsert_isSome (t : List ChatMessageRow)
    (userID : Owner) (it : ChatMessageItem) :
    ∃ r, findChatMessage (upsertChatMessage t userID it) userID it.uid
      = some r := by
  unfold upsertChatMessage
  by_cases hf : ((t.find? fun r => r.owner == userID && r.uid == it.uid)).isSome
  · rw [if_pos hf]
    obtain ⟨r, hr⟩ := Option.isSome_iff_exists.mp hf
    have hkey := List.find?_some hr
    have hkey2 : ((chatMessageConflictUpdate it r).owner == userID
        && (chatMessageConflictUpdate it r).uid == it.uid) = true := by
      unfold chatMessageConflictUpdate; split <;> exact hkey
    exact ⟨chatMessageConflictUpdate it r, find?_updateFirst hr hkey2⟩
  · rw [if_neg hf]
    have hnone := Option.not_isSome_iff_eq_none.mp hf
    refine ⟨chatMessageInsertRow userID it, ?_⟩
    show ((t ++ [chatMessageInsertRow userID it]).find? _) = _
    rw [find?_append_of_none hnone]
    simp [chatMessageInsertRow]

/-- C4 (amended): a non-tombstone comment or chat_message is upserted
only when the parent row exists for the same owner and is not
soft-deleted; otherwise the ack carries a parent-not-found error and
nothing is written. A tombstone passes the parent-existence guard
unconditionally and the upsert proceeds — except that a comment whose
`parent_type` is outside `{note, task}` is rejected with an
invalid-parent-type error even when it is a tombstone. -/
theorem push_parent_validation :
    (∀ (db : DB) (userID : Owner) (it : CommentItem),
      (it.parentType != "note" && it.parentType != "task") = false →
      ((commentParentGuard db userID it = false →
        PushCommentItem db userID it =
          (db, { uid := it.uid
                 version := it.version
                 updatedAtMs := it.updatedAtMs
                 error := some ("parent " ++ it.parentType ++ " not found") })) ∧
       (commentParentGuard db userID it = true →
        (PushCommentItem db userID it).1 =
          { db with comment := upsertComment db.comment userID it } ∧
        (PushCommentItem db userID it).2.error = none) ∧
       (∀ d, it.deletedAtMs = some d →
        commentParentGuard db userID it = true))) ∧
    (∀ (db : DB) (userID : Owner) (it : CommentItem),
      (it.parentType != "note" && it.parentType != "task") = true →
      PushCommentItem db userID it =
        (db, { uid := it.uid
               version := it.version
               updatedAtMs := it.updatedAtMs
               error := some ("invalid parent_type: " ++ it.parentType) })) ∧
    (∀ (db : DB) (userID : Owner) (it : ChatMessageItem),
      ((chatMessageParentGuard db userID it = false →
        PushChatMessageItem db userID it =
          (db, { uid := it.uid
                 version := it.version
                 updatedAtMs := it.updatedAtMs
                 error := some "parent chat not found" })) ∧
       (chatMessageParentGuard db userID it = true →
        (PushChatMessageItem db userID it).1 =
          { db with chatMessage := upsertChatMessage db.chatMessage userID it } ∧
        (PushChatMessageItem db userID it).2.error = none) ∧
       (∀ d, it.deletedAtMs = some d →
        chatMessageParentGuard db userID it = true))) := by
  refine ⟨?_, ?_, ?_⟩
  · intro db userID it hpt
    refine ⟨?_, ?_, ?_⟩
    · intro hguardF
      unfold PushCommentItem
      rw [hpt, hguardF]
      simp
    · intro hguardT
      obtain ⟨r', hr'⟩ := findComment_upsert_isSome db.comment userID it
      rw [PushCommentItem_guards_pass db userID it hpt hguardT, hr']
      exact ⟨rfl, rfl⟩
    · intro d hd
      simp [commentParentGuard, hd]
  · intro db userID it hpt
    unfold PushCommentItem
    rw [hpt]
    simp
  · intro db userID it
    refine ⟨?_, ?_, ?_⟩
    · intro hguardF
      unfold PushChatMessageItem
      rw [hguardF]
      simp
    · intro hguardT
      obtain ⟨r', hr'⟩ := findChatMessage_upsert_isSome db.chatMessage userID it
      rw [PushChatMessageItem_guards_pass db userID it hguardT, hr']
      exact ⟨rfl, rfl⟩
    · intro d hd
      simp [chatMessageParentGuard, hd]

/-- C4 witness: a non-tombstone chat_message pushed against an empty chat
table is rejected with parent-not-found and nothing is written. -/
theorem push_parent_validation_witness :
    PushChatMessageItem ⟨[], [], [], [], [], [], [], []⟩ "u1"
      { uid := 3, updatedAtMs := 1, deletedAtMs := none, version := 1,
        chatUid := 9, payload := "m" } =
      (⟨[], [], [], [], [], [], [], []⟩,
       { uid := 3, version := 1, updatedAtMs := 1,
         error := some "parent chat not found" }) :=
  (push_parent_validation.2.2 ⟨[], [], [], [], [], [], [], []⟩ "u1"
    { uid := 3, updatedAtMs := 1, deletedAtMs := none, version := 1,
      chatUid := 9, payload := "m" }).1 (by rfl)

/-- C4 counterexample: a comment tombstone whose `parent_type` is
`"chat"` is rejected with an invalid-parent-type error and no row is
written, although the claim states that every tombstone push skips the
parent check and proceeds to the upsert. -/
theorem push_tombstone_invalid_parent_type_rejected :
    PushCommentItem ⟨[], [], [], [], [], [], [], []⟩ "u1"
      { uid := 1, updatedAtMs := 5, deletedAtMs := some 5, version := 1,
        parentType := "chat", parentUid := 2, payload := "p" } =
      (⟨[], [], [], [], [], [], [], []⟩,
       { uid := 1, version := 1, updatedAtMs := 5,
         error := some "invalid parent_type: chat" }) ∧
    (⟨[], [], [], [], [], [], [], []⟩ : DB).comment = [] := by
  exact ⟨rfl, rfl⟩

/-- Reduction of a successful wipe (confirmation `"WIPE"`, no fault) to
its component operations. -/
theorem WipeAccount_ok (st : ServerState) (userID : Owner) (now : Ms)
    (hu : (userID == "") = false) :
    WipeAccount st userID "WIPE" now none =
      ({ db := { st.db with
           ownerState := (bumpEpochWipe st.db.ownerState userID now).1
           chatMessage := (deleteOwnedChatMessages st.db.chatMessage userID).1
           comment := (deleteOwnedComments st.db.comment userID).1
           chat := (deleteOwnedEntities st.db.chat userID).1
           task := (deleteOwnedEntities st.db.task userID).1
           note := (deleteOwnedEntities st.db.note userID).1 }
         sessions := (DeleteUserSessions st.sessions userID).1 },
       .ok (bumpEpochWipe st.db.ownerState userID now).2
         [("chat_message", (deleteOwnedChatMessages st.db.chatMessage userID).2),
          ("comment", (deleteOwnedComments st.db.comment userID).2),
          ("chat", (deleteOwnedEntities st.db.chat userID).2),
          ("task", (deleteOwnedEntities st.db.task userID).2),
          ("note", (deleteOwnedEntities st.db.note userID).2)]) := by
  unfold WipeAccount
  rw [hu]
  rfl

/-- C3 (amended): after a successful wipe for an authenticated user, the
stored epoch equals the epoch before the wipe plus one, no rows owned by
the user remain in the five tables the wipe deletes from (`note`, `task`,
`chat`, `comment`, `chat_message`), and no session of the user remains in
the registry; the `task_list` and `task_list_category` tables are not in
the wipe's delete list and are left unchanged. -/
theorem wipeAccount_epoch_rows_sessions (st : ServerState) (userID : Owner)
    (now : Ms) (hu : userID ≠ "") :
    epochOf (WipeAccount st userID "WIPE" now none).1.db userID =
      epochOf st.db userID + 1 ∧
    (∀ r ∈ (WipeAccount st userID "WIPE" now none).1.db.note,
      r.owner ≠ userID) ∧
    (∀ r ∈ (WipeAccount st userID "WIPE" now none).1.db.task,
      r.owner ≠ userID) ∧
    (∀ r ∈ (WipeAccount st userID "WIPE" now none).1.db.chat,
      r.owner ≠ userID) ∧
    (∀ r ∈ (WipeAccount st userID "WIPE" now none).1.db.comment,
      r.owner ≠ userID) ∧
    (∀ r ∈ (WipeAccount st userID "WIPE" now none).1.db.chatMessage,
      r.owner ≠ userID) ∧
    (∀ s ∈ (WipeAccount st userID "WIPE" now none).1.sessions,
      s.userId ≠ userID) ∧
    (WipeAccount st userID "WIPE" now none).1.db.taskList = st.db.taskList ∧
    (WipeAccount st userID "WIPE" now none).1.db.taskListCategory =
      st.db.taskListCategory := by
  have hu' : (userID == "") = false := by simpa using hu
  rw [WipeAccount_ok st userID now hu']
  refine ⟨?_, ?_, ?_, ?_, ?_, ?_, ?_, rfl, rfl⟩
  · show epochOf { st.db with
        ownerState := (bumpEpochWipe st.db.ownerState userID now).1
        chatMessage := (deleteOwnedChatMessages st.db.chatMessage userID).1
        comment := (deleteOwnedComments st.db.comment userID).1
        chat := (deleteOwnedEntities st.db.chat userID).1
        task := (deleteOwnedEntities st.db.task userID).1
        note := (deleteOwnedEntities st.db.note userID).1 } userID
      = epochOf st.db userID + 1
    unfold epochOf bumpEpochWipe
    cases hos : st.db.ownerState.find? fun s => s.owner == userID with
    | none =>
      simp only [hos]
      rw [find?_append_of_none hos]
      simp
    | some s =>
      simp only [hos]
      have hp := List.find?_some hos
      have hp2 : ((fun x : OwnerState => x.owner == userID)
          { s with
            epoch := s.epoch + 1
            lastWipeAt := some now
            lastWipeBy := some userID
            updatedAt := now }) = true := hp
      rw [find?_updateFirst hos hp2]
  · intro r hr
    have := (List.mem_filter.mp hr).2
    simpa using this
  · intro r hr
    have := (List.mem_filter.mp hr).2
    simpa using this
  · intro r hr
    have := (List.mem_filter.mp hr).2
    simpa using this
  · intro r hr
    have := (List.mem_filter.mp hr).2
    simpa using this
  · intro r hr
    have := (List.mem_filter.mp hr).2
    simpa using this
  · intro s hs
    have := (List.mem_filter.mp hs).2
    simpa using this

/-- C3 witness: a concrete successful wipe bumps the epoch from its lazy
default 1 to 2. -/
theorem wipeAccount_epoch_rows_sessions_witness :
    epochOf (WipeAccount ⟨⟨[], [], [], [], [], [], [], []⟩, []⟩
        "u1" "WIPE" 5 none).1.db "u1" =
      epochOf (⟨⟨[], [], [], [], [], [], [], []⟩, []⟩ : ServerState).db "u1"
        + 1 :=
  (wipeAccount_epoch_rows_sessions ⟨⟨[], [], [], [], [], [], [], []⟩, []⟩
    "u1" 5 (by decide)).1

/-- C3 counterexample: the wipe's delete list covers only five of the
seven entity kinds; a `task_list` row owned by the wiped user survives a
successful wipe, contradicting the claim that no entity row of the user
remains in any of the seven kinds' tables. -/
theorem wipe_leaves_task_list_row :
    (WipeAccount
      ⟨⟨[], [], [],
        [{ owner := "u1", uid := 4, updatedAtMs := 1, deletedAtMs := none,
           version := 1, payload := "x" }], [], [], [], []⟩, []⟩
      "u1" "WIPE" 5 none).2 =
      .ok 2 [("chat_message", 0), ("comment", 0), ("chat", 0), ("task", 0),
             ("note", 0)] ∧
    (WipeAccount
      ⟨⟨[], [], [],
        [{ owner := "u1", uid := 4, updatedAtMs := 1, deletedAtMs := none,
           version := 1, payload := "x" }], [], [], [], []⟩, []⟩
      "u1" "WIPE" 5 none).1.db.taskList =
      [{ owner := "u1", uid := 4, updatedAtMs := 1, deletedAtMs := none,
         version := 1, payload := "x" }] :=
  ⟨rfl, rfl⟩

theorem keyLeB_true_iff (a b : Ms × Uid) :
    keyLeB a b = true ↔ a.1 < b.1 ∨ (a.1 = b.1 ∧ a.2 ≤ b.2) := by
  simp [keyLeB, Bool.or_eq_true, Bool.and_eq_true, decide_eq_true_eq,
    beq_iff_eq]

instance : IsTotal CommentRow pullOrder :=
  ⟨fun a b => by
    unfold pullOrder
    rw [keyLeB_true_iff, keyLeB_true_iff]
    rcases lt_trichotomy (commentKey a).1 (commentKey b).1 with h | h | h
    · exact Or.inl (Or.inl h)
    · rcases le_total (commentKey a).2 (commentKey b).2 with h2 | h2
      · exact Or.inl (Or.inr ⟨h, h2⟩)
      · exact Or.inr (Or.inr ⟨h.symm, h2⟩)
    · exact Or.inr (Or.inl h)⟩

instance : IsTrans CommentRow pullOrder :=
  ⟨fun a b c hab hbc => by
    unfold pullOrder at hab hbc ⊢
    rw [keyLeB_true_iff] at hab hbc ⊢
    rcases hab with h | ⟨he, h2⟩ <;> rcases hbc with h' | ⟨he', h2'⟩
    · exact Or.inl (lt_trans h h')
    · exact Or.inl (he' ▸ h)
    · exact Or.inl (he ▸ h')
    · exact Or.inr ⟨he.trans he', le_trans h2 h2'⟩⟩

theorem getLast?_cons_getD : ∀ (l : List α) (a x : α),
    ((a :: l).getLast?).getD x = (l.getLast?).getD a
  | [], _, _ => rfl
  | b :: bs, a, x => by
    rw [List.getLast?_cons_cons]
    cases hxy : (b :: bs).getLast? with
    | none => simp [List.getLast?_eq_none_iff] at hxy
    | some y => simp [hxy]

/-- Characterization of the Go result loop: the upserts are the payloads
of the non-tombstone rows in order, the deletes are `(uid, deleted_at)`
of the tombstones in order, and the final `(lastMs, lastUID)` is the key
of the last row (or the initial value on an empty page). -/
theorem pullStep_foldl : ∀ (rows : List CommentRow) (us : List Payload)
    (ds : List (Uid × Ms)) (last : Ms × Uid),
    rows.foldl pullStep (us, ds, last) =
      (us ++ rows.filterMap (fun r =>
         match r.deletedAtMs with
         | none => some r.payload
         | some _ => none),
       ds ++ rows.filterMap (fun r => r.deletedAtMs.map fun d => (r.uid, d)),
       ((rows.map commentKey).getLast?).getD last)
  | [], us, ds, last => by simp
  | r :: rs, us, ds, last => by
    cases hd : r.deletedAtMs with
    | none =>
      rw [List.foldl_cons,
        show pullStep (us, ds, last) r = (us ++ [r.payload], ds,
          (r.updatedAtMs, r.uid)) by simp [pullStep, hd],
        pullStep_foldl rs]
      rw [List.map_cons, getLast?_cons_getD]
      simp [List.filterMap_cons, hd, commentKey]
    | some d =>
      rw [List.foldl_cons,
        show pullStep (us, ds, last) r = (us, ds ++ [(r.uid, d)],
          (r.updatedAtMs, r.uid)) by simp [pullStep, hd],
        pullStep_foldl rs]
      rw [List.map_cons, getLast?_cons_getD]
      simp [List.filterMap_cons, hd, commentKey]

theorem pull_partition_length : ∀ rows : List CommentRow,
    (rows.filterMap (fun r =>
       match r.deletedAtMs with
       | none => some r.payload
       | some _ => none)).length +
    (rows.filterMap (fun r =>
       r.deletedAtMs.map fun d => (r.uid, d))).length = rows.length
  | [] => rfl
  | r :: rs => by
    have ih := pull_partition_length rs
    cases hd : r.deletedAtMs <;>
      simp [List.filterMap_cons, hd] <;> omega

/-- `PullComments` written out through the loop characterization. -/
theorem PullComments_eq (t : List CommentRow) (userID : Owner)
    (cursor : Ms × Uid) (limit : Nat) :
    PullComments t userID cursor limit =
      { upserts := (queryPullComments t userID cursor limit).filterMap
          (fun r =>
            match r.deletedAtMs with
            | none => some r.payload
            | some _ => none)
        deletes := (queryPullComments t userID cursor limit).filterMap
          (fun r => r.deletedAtMs.map fun d => (r.uid, d))
        nextCursor :=
          if ((queryPullComments t userID cursor limit).filterMap
                (fun r =>
                  match r.deletedAtMs with
                  | none => some r.payload
                  | some _ => none)).length +
             ((queryPullComments t userID cursor limit).filterMap
                (fun r => r.deletedAtMs.map fun d => (r.uid, d))).length > 0
          then some ((((queryPullComments t userID cursor limit).map
                 commentKey).getLast?).getD (0, 0))
          else none } := by
  have h := pullStep_foldl (queryPullComments t userID cursor limit) [] [] (0, 0)
  simp only [PullComments]
  rw [h]
  simp

/-- C2: a pull page holds at most `limit` rows; every selected row
belongs to the caller and lies strictly beyond the cursor in `(ms, uid)`
order; the page is listed in ascending `(ms, uid)` order; live rows
appear as upserts carrying the stored payload verbatim and tombstones as
`(uid, deleted_at)` deletes, in page order; and `next_cursor` is the
`(ms, uid)` key of the last returned row exactly when the page is
non-empty. -/
theorem pullComments_page_properties (t : List CommentRow) (userID : Owner)
    (cursor : Ms × Uid) (limit : Nat) :
    (PullComments t userID cursor limit).upserts.length
      + (PullComments t userID cursor limit).deletes.length ≤ limit ∧
    (∀ r ∈ queryPullComments t userID cursor limit,
      r.owner = userID ∧ cursorLtB cursor (commentKey r) = true) ∧
    List.Pairwise pullOrder (queryPullComments t userID cursor limit) ∧
    (PullComments t userID cursor limit).upserts
      = (queryPullComments t userID cursor limit).filterMap
          (fun r =>
            match r.deletedAtMs with
            | none => some r.payload
            | some _ => none) ∧
    (PullComments t userID cursor limit).deletes
      = (queryPullComments t userID cursor limit).filterMap
          (fun r => r.deletedAtMs.map fun d => (r.uid, d)) ∧
    (PullComments t userID cursor limit).nextCursor
      = (if (queryPullComments t userID cursor limit).isEmpty then none
         else ((queryPullComments t userID cursor limit).map
           commentKey).getLast?) := by
  refine ⟨?_, ?_, ?_, ?_, ?_, ?_⟩
  · rw [PullComments_eq]
    have hsum := pull_partition_length (queryPullComments t userID cursor limit)
    have hlen : (queryPullComments t userID cursor limit).length ≤ limit := by
      unfold queryPullComments
      exact List.length_take_le _ _
    exact le_of_eq_of_le hsum hlen
  · intro r hr
    have h1 : r ∈ (t.filter fun r =>
        r.owner == userID && cursorLtB cursor (commentKey r)) := by
      have h2 : r ∈ List.insertionSort pullOrder (t.filter fun r =>
          r.owner == userID && cursorLtB cursor (commentKey r)) :=
        (List.take_sublist _ _).mem hr
      exact (List.perm_insertionSort pullOrder _).mem_iff.mp h2
    have hpred := (List.mem_filter.mp h1).2
    rcases Bool.and_eq_true_iff.mp hpred with ⟨ho, hc⟩
    exact ⟨by simpa using ho, hc⟩
  · exact List.Pairwise.sublist (List.take_sublist _ _)
      (List.sorted_insertionSort pullOrder _)
  · rw [PullComments_eq]
  · rw [PullComments_eq]
  · rw [PullComments_eq]
    have hsum := pull_partition_length (queryPullComments t userID cursor limit)
    cases hq : queryPullComments t userID cursor limit with
    | nil => simp
    | cons a l =>
      rw [hq] at hsum
      have hpos : 0 < (List.filterMap (fun r =>
          match r.deletedAtMs with
          | none => some r.payload
          | some _ => none) (a :: l)).length +
          (List.filterMap (fun r => r.deletedAtMs.map fun d => (r.uid, d))
            (a :: l)).length := by
        rw [hsum]; simp
      rw [if_pos hpos]
      cases hy : ((a :: l).map commentKey).getLast? with
      | none =>
        rw [List.getLast?_eq_none_iff] at hy
        exact absurd hy (by simp)
      | some y => simp [hy]

/-- C2 witness: in a concrete two-row table, a selected row is owned by
the caller and lies strictly beyond the origin cursor. -/
theorem pullComments_page_properties_witness :
    ({ owner := "u1", uid := 1, updatedAtMs := 1, deletedAtMs := none,
       version := 1, payload := "p1", parentType := "note",
       parentUid := 9 } : CommentRow).owner = "u1" ∧
    cursorLtB (0, 0) (commentKey
      { owner := "u1", uid := 1, updatedAtMs := 1, deletedAtMs := none,
        version := 1, payload := "p1", parentType := "note",
        parentUid := 9 }) = true :=
  (pullComments_page_properties
    [{ owner := "u1", uid := 1, updatedAtMs := 1, deletedAtMs := none,
       version := 1, payload := "p1", parentType := "note", parentUid := 9 },
     { owner := "u1", uid := 2, updatedAtMs := 2, deletedAtMs := some 2,
       version := 1, payload := "p2", parentType := "note", parentUid := 9 }]
    "u1" (0, 0) 2).2.1
    { owner := "u1", uid := 1, updatedAtMs := 1, deletedAtMs := none,
      version := 1, payload := "p1", parentType := "note", parentUid := 9 }
    (by decide)

end ToolBridge
